import Mathlib

/-!
Verification development for the SSHContainer session-to-container broker
(`internal/server/container.go`, `config.go`, `server.go`).

The Go code is embedded shallowly:

* The `ContainerManager`'s mutable state (the username-keyed registry map and
  the runtime's container list) becomes the explicit state `CMState`; every
  Docker / btrfs API call made by a function is recorded as an `Effect` in the
  order the code issues it.
* External tools are modelled with their documented semantics where the code
  relies on them: `btrfs subvolume create` succeeds on a non-existing path,
  `btrfs qgroup limit` succeeds exactly on a btrfs subvolume.  Docker calls
  whose failure the code either ignores (`VolumeRemove`) or does not branch on
  are modelled as succeeding; calls whose outcome the code branches on
  (`ContainerCreate`, `ContainerStart`, `NetworkConnect`) take their outcome
  from a `RuntimeOutcome` parameter.
* `path.Join`/`path.Clean` from the Go standard library are modelled for
  rooted paths (every use in the code joins onto the absolute `/mnt/vfs`).
* `ParseSize` is modelled including its float64 pipeline: decimal literals are
  rounded to 53 significant bits (round-to-nearest, ties-to-even), exactly as
  `strconv.ParseFloat(_, 64)` does, and the final conversion mirrors Go's
  float-to-uint64 conversion, whose out-of-range case is implementation
  defined (`SizeResult.undef`).
-/

/-! ## Go `path.Clean` / `path.Join` on rooted paths -/

/-- Split a character list on `'/'` (the component decomposition used by
`path.Clean`). -/
def splitSlash : List Char → List (List Char)
  | [] => [[]]
  | c :: cs =>
    match splitSlash cs with
    | [] => [[]]
    | r :: rs => if c = '/' then [] :: r :: rs else (c :: r) :: rs

/-- The component stack produced by `path.Clean` on a rooted path: empty and
`"."` components are dropped, `".."` pops (and at the root is discarded),
anything else is appended. -/
def cleanComps (stack : List (List Char)) : List (List Char) → List (List Char)
  | [] => stack
  | comp :: rest =>
    if comp = [] then cleanComps stack rest
    else if comp = ['.'] then cleanComps stack rest
    else if comp = ['.', '.'] then cleanComps stack.dropLast rest
    else cleanComps (stack ++ [comp]) rest

/-- Go `path.Clean` for paths that begin with `'/'` (every path the code
cleans is rooted at `/mnt/vfs`). -/
def cleanAbs (s : String) : String :=
  ⟨'/' :: List.intercalate ['/'] (cleanComps [] (splitSlash s.data))⟩

/-- Go `path.Join a b` for a non-empty rooted `a`: `Clean(a + "/" + b)`. -/
def goPathJoin (a b : String) : String :=
  cleanAbs (a ++ "/" ++ b)

/-- The per-user VFS path computed by `CreateVFSMount`:
`path.Join("/mnt/vfs", cfg.User)`. -/
def userVFS (user : String) : String :=
  goPathJoin "/mnt/vfs" user

/-- `p` lies strictly below the mountpoint: `"/mnt/vfs/"` leads it. -/
def listLeads : List Char → List Char → Bool
  | [], _ => true
  | _ :: _, [] => false
  | a :: as_, b :: bs => a = b && listLeads as_ bs

/-- The path is a strict child of `/mnt/vfs`. -/
def underMount (p : String) : Bool :=
  listLeads "/mnt/vfs/".data p.data && p ≠ "/mnt/vfs/"

/-! ## Container-manager state -/

/-- One registry entry (`UserContainer`): container id, active-stream count
and last-used instant.  `ActiveStreams` is a Go `int`, hence `Int`. -/
structure RegEntry where
  id : String
  activeStreams : Int
  lastUsed : Nat
deriving Repr, DecidableEq

/-- A container as the runtime sees it: its id and its two
`de.mc8051.sshcontainer` labels. -/
structure DockerContainer where
  id : String
  hasOwnerLabel : Bool
  userLabel : String
deriving Repr, DecidableEq

/-- The mutable state of `ContainerManager`: the username-keyed registry map
and the runtime's container list. -/
structure CMState where
  containers : List (String × RegEntry)
  docker : List DockerContainer
deriving Repr, DecidableEq

/-- The spec record handed to `ContainerCreate` (`container.Config` plus the
`HostConfig` resource fields built in `createContainer`). -/
structure ContainerSpec where
  image : String
  env : List String
  cmd : List String
  openStdin : Bool
  labelOwner : Bool
  labelUser : String
  networkMode : String
  capAdd : List String
  securityOpt : List String
  readonlyRootfs : Bool
  volumeSource : String
  volumeTarget : String
  tmpfsSize : Int
  memory : Int
  nanoCPUs : Int
  devices : List String
  name : String
deriving Repr, DecidableEq

/-- The spec handed to `ContainerExecCreate` in `ExecInContainer`. -/
structure ExecSpec where
  user : String
  tty : Bool
  attachStdin : Bool
  attachStderr : Bool
  attachStdout : Bool
  env : List String
  cmd : List String
deriving Repr, DecidableEq

/-- One runtime / filesystem API call, in the order the code issues them. -/
inductive Effect where
  | subvolCreate (path : String)
  | qgroupLimit (quota path : String)
  | volumeRemove (name : String)
  | volumeCreate (name : String)
  | containerCreate (spec : ContainerSpec)
  | networkConnect (net id : String)
  | containerStart (id : String)
  | containerRemove (id : String) (force removeVolumes : Bool)
deriving Repr, DecidableEq

/-- The fields of `Config` that `container.go` reads. -/
structure SrvConfig where
  dockerImage : String
  quota : String
  networks : List String
  networkMode : String
  capAdd : List String
  securityOpt : List String
  readOnly : Bool
  vfsMountPath : String
  quotaBytes : Int
  memoryLimitBytes : Int
  cpuLimitNano : Int
  devices : List String
  containerUser : String
  containerCmd : List String
deriving Repr, DecidableEq

/-- Mirror of the Go `ContainerConfig` struct. -/
structure ContainerConfig where
  image : String
  cmd : List String
  env : List String
  isPty : Bool
  ptyRows : Nat
  ptyCols : Nat
  user : String
deriving Repr, DecidableEq

/-- Filesystem / volume facts `CreateVFSMount` can observe for one user:
whether `M/<user>` exists, whether it is a btrfs subvolume, and whether the
named Docker volume currently exists. -/
structure ProvisionState where
  pathExists : Bool
  pathIsSubvol : Bool
  volumeExists : Bool
deriving Repr, DecidableEq

/-- Outcomes of the runtime calls `GetOrCreateContainer` branches on. -/
structure RuntimeOutcome where
  createOk : Bool
  newId : String
  networksOk : Bool
  startOk : Bool
deriving Repr, DecidableEq

/-! ## Registry primitives -/

/-- `cm.containers[username]` (comma-ok map read). -/
def lookupUser : List (String × RegEntry) → String → Option RegEntry
  | [], _ => none
  | p :: rest, u => if p.1 = u then some p.2 else lookupUser rest u

/-- `delete(cm.containers, username)`. -/
def eraseUser (l : List (String × RegEntry)) (u : String) :
    List (String × RegEntry) :=
  l.filter (fun p => ¬(p.1 = u))

/-- In-place update of the entry stored under `u` (Go mutates the pointed-to
`UserContainer`). -/
def updateUser (l : List (String × RegEntry)) (u : String)
    (f : RegEntry → RegEntry) : List (String × RegEntry) :=
  l.map (fun p => if p.1 = u then (p.1, f p.2) else p)

/-! ## `CreateVFSMount`, `RemoveVFSMount` -/

/-- `sshcontainer-vfs-<user>`. -/
def volumeNameOf (user : String) : String := "sshcontainer-vfs-" ++ user

/-- `CreateVFSMount` (container.go:395).  `os.Stat` is modelled as reporting
existence; `btrfs subvolume create` succeeds on the non-existing path and
makes it a subvolume; `btrfs qgroup limit` succeeds exactly when the target
is a subvolume; `VolumeInspect`/`VolumeRemove`/`VolumeCreate` succeed. -/
def CreateVFSMount (quota user : String) (ps : ProvisionState) :
    Option String × ProvisionState × List Effect :=
  let path := userVFS user
  let name := volumeNameOf user
  let (ps₁, effs₁) :=
    if ps.pathExists then (ps, ([] : List Effect))
    else ({ ps with pathExists := true, pathIsSubvol := true },
          [Effect.subvolCreate path])
  let effs₂ := effs₁ ++ [Effect.qgroupLimit quota path]
  if ¬ps₁.pathIsSubvol then (none, ps₁, effs₂)
  else
    let (ps₂, effs₃) :=
      if ps₁.volumeExists then
        ({ ps₁ with volumeExists := false }, effs₂ ++ [Effect.volumeRemove name])
      else (ps₁, effs₂)
    (some name, { ps₂ with volumeExists := true },
     effs₃ ++ [Effect.volumeCreate name])

/-- `RemoveVFSMount` (container.go:458): best-effort volume removal, error
ignored, always succeeds. -/
def RemoveVFSMount (user : String) : List Effect :=
  [Effect.volumeRemove (volumeNameOf user)]

/-! ## `createContainer`, `GetOrCreateContainer` -/

/-- The creation spec `createContainer` (container.go:176) assembles.  The
local `env := make([]string, 0)` is deliberate: `cfg.Env` is never read. -/
def buildContainerSpec (conf : SrvConfig) (cfg : ContainerConfig)
    (volumeName : String) : ContainerSpec :=
  { image := cfg.image
    env := []
    cmd := cfg.cmd
    openStdin := true
    labelOwner := true
    labelUser := cfg.user
    networkMode := conf.networkMode
    capAdd := conf.capAdd
    securityOpt := conf.securityOpt
    readonlyRootfs := conf.readOnly
    volumeSource := volumeName
    volumeTarget := conf.vfsMountPath
    tmpfsSize := conf.quotaBytes
    memory := conf.memoryLimitBytes
    nanoCPUs := conf.cpuLimitNano
    devices := conf.devices
    name := "sshcontainer-" ++ cfg.user }

/-- `createContainer` (container.go:176): provision the VFS volume, create
the container, connect the extra networks (rolling the container back with a
plain force-remove on a connect failure).  Returns the new container id, the
updated provision and runtime state, and the calls issued. -/
def createContainer (conf : SrvConfig) (cfg : ContainerConfig)
    (ps : ProvisionState) (docker : List DockerContainer)
    (ro : RuntimeOutcome) :
    Option String × ProvisionState × List DockerContainer × List Effect :=
  match CreateVFSMount conf.quota cfg.user ps with
  | (none, ps', effs) => (none, ps', docker, effs)
  | (some volName, ps', effs) =>
    if ¬ro.createOk then
      (none, ps', docker, effs ++ [Effect.containerCreate
        (buildContainerSpec conf cfg volName)])
    else
      let effs := effs ++ [Effect.containerCreate
        (buildContainerSpec conf cfg volName)]
      let docker' := docker ++ [⟨ro.newId, true, cfg.user⟩]
      let netEffs := (conf.networks.drop 1).map
        (fun n => Effect.networkConnect n ro.newId)
      if conf.networks.length > 1 ∧ ¬ro.networksOk then
        (none, ps', docker,
         effs ++ netEffs ++ [Effect.containerRemove ro.newId true false])
      else
        (some ro.newId, ps', docker', effs ++ netEffs)

/-- Result of `GetOrCreateContainer`. -/
structure AcqResult where
  cid : Option String
  st : CMState
  ps : ProvisionState
  effects : List Effect
deriving Repr, DecidableEq

/-- `GetOrCreateContainer` (container.go:137).  When an entry exists its
refcount is bumped and its last-used instant refreshed; otherwise a container
is created and started, and only on a successful start is a fresh entry with
refcount 1 inserted.  Note: a start failure returns the error with no
rollback call. -/
def GetOrCreateContainer (st : CMState) (username : String)
    (env : List String) (now : Nat) (conf : SrvConfig) (ps : ProvisionState)
    (ro : RuntimeOutcome) : AcqResult :=
  match lookupUser st.containers username with
  | some ct =>
    let bump : RegEntry → RegEntry :=
      fun e => { e with activeStreams := e.activeStreams + 1, lastUsed := now }
    { cid := some ct.id
      st := { st with containers := updateUser st.containers username bump }
      ps := ps
      effects := [] }
  | none =>
    let cfg : ContainerConfig :=
      { image := conf.dockerImage, cmd := [], env := env, isPty := false,
        ptyRows := 0, ptyCols := 0, user := username }
    match createContainer conf cfg ps st.docker ro with
    | (none, ps', docker', effs) =>
      { cid := none, st := { st with docker := docker' }, ps := ps',
        effects := effs }
    | (some cid, ps', docker', effs) =>
      if ro.startOk then
        { cid := some cid
          st := { containers := st.containers ++
                    [(username, ⟨cid, 1, now⟩)],
                  docker := docker' }
          ps := ps'
          effects := effs ++ [Effect.containerStart cid] }
      else
        { cid := none
          st := { st with docker := docker' }
          ps := ps'
          effects := effs ++ [Effect.containerStart cid] }

/-! ## `ReleaseContainer`, `removeContainer`, reaper, shutdown -/

/-- `ReleaseContainer` (container.go:279): decrement and refresh last-used if
the entry exists — there is no floor. -/
def ReleaseContainer (st : CMState) (username : String) (now : Nat) :
    CMState :=
  match lookupUser st.containers username with
  | none => st
  | some _ =>
    let dec : RegEntry → RegEntry :=
      fun e => { e with activeStreams := e.activeStreams - 1, lastUsed := now }
    { st with containers := updateUser st.containers username dec }

/-- `removeContainer` (container.go:373): acts only when the username is in
the registry; then force-removes the container (with volumes), releases the
named volume and deletes the entry.  The runtime removal is modelled as
succeeding. -/
def removeContainer (st : CMState) (username : String) :
    CMState × List Effect :=
  match lookupUser st.containers username with
  | none => (st, [])
  | some ct =>
    ({ containers := eraseUser st.containers username,
       docker := st.docker.filter (fun c => ¬(c.id = ct.id)) },
     Effect.containerRemove ct.id true true :: RemoveVFSMount username)

/-- The reaper's scan body: visit the snapshot of registry entries in order
and remove each idle one (`cleanupIdleContainers`, container.go:113). -/
def reapList (now timeout : Nat) :
    List (String × RegEntry) → CMState → CMState × List Effect
  | [], st => (st, [])
  | p :: rest, st =>
    if p.2.activeStreams = 0 ∧ now - p.2.lastUsed > timeout then
      let r := removeContainer st p.1
      let r' := reapList now timeout rest r.1
      (r'.1, r.2 ++ r'.2)
    else reapList now timeout rest st

/-- `cleanupIdleContainers` (container.go:113). -/
def cleanupIdleContainers (now timeout : Nat) (st : CMState) :
    CMState × List Effect :=
  reapList now timeout st.containers st

/-- The removal loop of `CleanUpContainers`: each listed container is handed
to `removeContainer` keyed by its user label. -/
def removeListed : List DockerContainer → CMState → CMState × List Effect
  | [], st => (st, [])
  | c :: rest, st =>
    let r := removeContainer st c.userLabel
    let r' := removeListed rest r.1
    (r'.1, r.2 ++ r'.2)

/-- `CleanUpContainers` (container.go:349): list all containers carrying the
owner label, then remove each via `removeContainer`. -/
def CleanUpContainers (st : CMState) : CMState × List Effect :=
  removeListed (st.docker.filter (·.hasOwnerLabel)) st

/-- `Shutdown` (container.go:344): stop the reaper (a channel close, not part
of this state) and run `CleanUpContainers`. -/
def Shutdown (st : CMState) : CMState × List Effect :=
  CleanUpContainers st

/-- The exec spec `ExecInContainer` (container.go:306) assembles. -/
def buildExecSpec (user : String) (tty : Bool) (env cmd : List String) :
    ExecSpec :=
  { user := user, tty := tty, attachStdin := true, attachStderr := true,
    attachStdout := true, env := env, cmd := cmd }

/-- The exec spec `handleSession` (server.go:84) opens: the session
environment verbatim, the session command if present else the configured
default, the configured guest user. -/
def sessionExecSpec (conf : SrvConfig) (sessEnv sessCmd : List String)
    (isPty : Bool) : ExecSpec :=
  buildExecSpec conf.containerUser isPty sessEnv
    (if sessCmd ≠ [] then sessCmd else conf.containerCmd)

/-! ## `ParseSize` (container.go:487) -/

/-- Go regexp `\s`: `[\t\n\f\r ]`. -/
def isSpaceGo (c : Char) : Bool :=
  c = ' ' || c = '\t' || c = '\n' || c = Char.ofNat 12 || c = '\r'

/-- The unit strings the alternation `[KMGT]B?|B?` (with the empty case)
admits. -/
def isValidUnit (u : List Char) : Bool :=
  u ∈ [([] : List Char), ['B'], ['K'], ['K', 'B'], ['M'], ['M', 'B'],
       ['G'], ['G', 'B'], ['T'], ['T', 'B']]

/-- Matching `^(\d+\.?\d*)\s*([KMGT]B?|B?)$` on an (already upper-cased)
character list: integer digits, optional fraction, optional whitespace, a
valid unit filling the rest.  Returns the two digit groups and the unit. -/
def matchSize (cs : List Char) :
    Option ((List Char × List Char) × List Char) :=
  let ip := cs.takeWhile Char.isDigit
  let r₁ := cs.dropWhile Char.isDigit
  if ip = [] then none
  else
    let fr : List Char × List Char :=
      match r₁ with
      | '.' :: rest => (rest.takeWhile Char.isDigit, rest.dropWhile Char.isDigit)
      | _ => ([], r₁)
    let r₃ := fr.2.dropWhile isSpaceGo
    if isValidUnit r₃ then some ((ip, fr.1), r₃) else none

/-- Decimal value of a digit list. -/
def natOfDigits (ds : List Char) : ℕ :=
  ds.foldl (fun a c => a * 10 + (c.toNat - '0'.toNat)) 0

/-- An exact non-negative rational, kept as a raw numerator/denominator pair
of naturals (denominator positive by construction, never normalised): all
float64 arithmetic of `ParseSize` is carried out value-exactly on these. -/
abbrev Frac : Type := ℕ × ℕ

/-- The rational value of a `Frac`. -/
def toQ (a : Frac) : ℚ := (a.1 : ℚ) / (a.2 : ℚ)

/-- Value comparison `toQ a ≤ toQ b` by cross-multiplication. -/
def fracLE (a b : Frac) : Bool := a.1 * b.2 ≤ b.1 * a.2

/-- Value comparison `toQ a < toQ b` by cross-multiplication. -/
def fracLT (a b : Frac) : Bool := a.1 * b.2 < b.1 * a.2

/-- Value equality `toQ a = toQ b` by cross-multiplication. -/
def fracEQ (a b : Frac) : Bool := a.1 * b.2 = b.1 * a.2

/-- Multiply a `Frac` by `2 ^ k`, `k` an integer. -/
def fracMulPow2 (k : ℤ) (a : Frac) : Frac :=
  if 0 ≤ k then (a.1 * 2 ^ k.toNat, a.2) else (a.1, a.2 * 2 ^ (-k).toNat)

/-- Multiply a `Frac` by a natural. -/
def fracMulNat (a : Frac) (m : ℕ) : Frac := (a.1 * m, a.2)

/-- Exact value of `<intPart>.<fracPart>`. -/
def decValue (ip fp : List Char) : Frac :=
  (natOfDigits ip * 10 ^ fp.length + natOfDigits fp, 10 ^ fp.length)

/-- Binary exponent search, structural in the fuel: for `1 ≤ q < 2 ^ fuel`
it returns `e` with `2 ^ e ≤ q < 2 ^ (e + 1)`. -/
def ilog2Aux : ℕ → Frac → ℕ
  | 0, _ => 0
  | fuel + 1, q =>
    if fracLT q (2, 1) then 0 else ilog2Aux fuel (q.1, q.2 * 2) + 1

/-- For `0 < q < 1`: the number of doublings needed to reach `[1, 2)`. -/
def ilog2Neg : ℕ → Frac → ℕ
  | 0, _ => 0
  | fuel + 1, q =>
    if fracLE (1, 1) q then 0 else ilog2Neg fuel (q.1 * 2, q.2) + 1

/-- `⌊log₂ q⌋` for positive `q` (fuel covers every magnitude a float64
carries). -/
def ilog2 (q : Frac) : ℤ :=
  if fracLE (1, 1) q then (ilog2Aux 1200 q : ℤ) else -(ilog2Neg 1200 q : ℤ)

/-- `⌊toQ a⌋` for a `Frac`. -/
def floorF (a : Frac) : ℕ := a.1 / a.2

/-- Round a non-negative `Frac` to a natural: nearest, ties to even. -/
def rneF (a : Frac) : ℕ :=
  let f := floorF a
  let r := a.1 - f * a.2
  if 2 * r < a.2 then f
  else if a.2 < 2 * r then f + 1
  else if f % 2 = 0 then f else f + 1

/-- IEEE-754 binary64 rounding of a non-negative value (round to nearest,
ties to even, 53 significant bits), exactly what `strconv.ParseFloat` and
float64 multiplication do to in-range values.  Subnormal underflow and the
overflow to infinity are not folded in here; callers guard the `2 ^ 1024`
threshold. -/
def flRound (q : Frac) : Frac :=
  if q.1 = 0 then (0, 1)
  else
    let e := ilog2 q
    fracMulPow2 (e - 52) (rneF (fracMulPow2 (52 - e) q), 1)

/-- What `ParseSize` can produce.  `undef` marks the implementation-defined
Go conversion `uint64(f)` for an out-of-range `f` (reached when the float64
product is exactly `2 ^ 64`, which the `> math.MaxUint64` guard — whose
constant rounds to `2 ^ 64` — does not catch). -/
inductive SizeResult where
  | ok (n : ℕ)
  | errEmpty
  | errFormat
  | errNumber
  | errUnit
  | errOverflow
  | undef
deriving Repr, DecidableEq

/-- The `switch matches[2]` multiplier exponent: `1024 ^ (unitPow u)`. -/
def unitPow (u : List Char) : Option ℕ :=
  if u = [] ∨ u = ['B'] then some 0
  else if u = ['K'] ∨ u = ['K', 'B'] then some 1
  else if u = ['M'] ∨ u = ['M', 'B'] then some 2
  else if u = ['G'] ∨ u = ['G', 'B'] then some 3
  else if u = ['T'] ∨ u = ['T', 'B'] then some 4
  else none

/-- `ParseSize` on the character list of the input.  Mirrors the source:
empty check, upper-casing, the regexp match, `strconv.ParseFloat` (modelled
by `flRound`, with its range error), the unit switch, the float64 product,
the `> math.MaxUint64` guard (the constant rounds to `2 ^ 64`), and the
final `uint64(bytes)` conversion (truncation in range, implementation
defined at `2 ^ 64`). -/
def parseSizeCore (cs : List Char) : SizeResult :=
  if cs = [] then .errEmpty
  else
    match matchSize (cs.map Char.toUpper) with
    | none => .errFormat
    | some ((ip, fp), unit) =>
      let v := flRound (decValue ip fp)
      if fracLE (2 ^ 1024, 1) v then .errNumber
      else
        match unitPow unit with
        | none => .errUnit
        | some k =>
          let bytes := flRound (fracMulNat v (1024 ^ k))
          if fracLT (2 ^ 64, 1) bytes then .errOverflow
          else if fracEQ bytes (2 ^ 64, 1) then .undef
          else .ok (floorF bytes)

/-- `ParseSize` (container.go:487). -/
def ParseSize (s : String) : SizeResult :=
  parseSizeCore s.data

/-! ## `parseMemoryString`, `LoadConfig` (config.go) -/

/-- Go `strings.TrimSpace`. -/
def trimSpace (cs : List Char) : List Char :=
  ((cs.dropWhile isSpaceGo).reverse.dropWhile isSpaceGo).reverse

/-- Sign handling of `%d` scanning: whether a leading `-` was consumed, and
the remainder after an optional sign. -/
def scanSign (cs : List Char) : Bool × List Char :=
  if cs.head? = some '-' then (true, cs.tail)
  else if cs.head? = some '+' then (false, cs.tail)
  else (false, cs)

/-- The scanned value with its sign applied. -/
def signedVal (neg : Bool) (ds : List Char) : Int :=
  if neg then -(natOfDigits ds : Int) else (natOfDigits ds : Int)

/-- Digits to `int64`, with the scanner's range check. -/
def toInt64Checked (neg : Bool) (ds : List Char) : Option Int :=
  if ds = [] then none
  else if signedVal neg ds < -(2 ^ 63) ∨ (2 ^ 63 - 1 : Int) < signedVal neg ds
    then none
  else some (signedVal neg ds)

/-- `fmt.Sscanf(val, "%d", &result)` into an `int64`: skip spaces, optional
sign, at least one digit, trailing characters ignored; out-of-range values
error. -/
def goSscanfD (cs : List Char) : Option Int :=
  toInt64Checked (scanSign (cs.dropWhile isSpaceGo)).1
    ((scanSign (cs.dropWhile isSpaceGo)).2.takeWhile Char.isDigit)

/-- Two's-complement wrap of Go `int64` arithmetic. -/
def wrap64 (i : Int) : Int :=
  (i + 2 ^ 63) % 2 ^ 64 - 2 ^ 63

/-- The case-sensitive `G`/`M`/`K` suffix stripping of `parseMemoryString`:
binary multiplier and remaining text. -/
def stripMemSuffix (v : List Char) : Int × List Char :=
  if v.getLast? = some 'G' then (2 ^ 30, v.dropLast)
  else if v.getLast? = some 'M' then (2 ^ 20, v.dropLast)
  else if v.getLast? = some 'K' then (2 ^ 10, v.dropLast)
  else (1, v)

/-- `parseMemoryString` (config.go:56): trim, case-sensitively strip one of
the suffixes `G`/`M`/`K` (binary multipliers), scan the rest with `%d`, and
multiply in `int64` arithmetic. -/
def parseMemoryString (val : String) : Option Int :=
  (goSscanfD (stripMemSuffix (trimSpace val.data)).2).map
    (fun n => wrap64 (n * (stripMemSuffix (trimSpace val.data)).1))

/-- The configuration inputs `LoadConfig` post-processes. -/
structure ConfigIn where
  memoryLimit : String
  cpuLimit : ℚ
deriving Repr, DecidableEq

/-- The parsed fields `LoadConfig` stores. -/
structure GoConfig where
  memoryLimit : String
  cpuLimit : ℚ
  memoryLimitBytes : Int
  cpuLimitNano : Int
deriving Repr, DecidableEq

/-- Go `int64(f)` for a float: truncation toward zero. -/
def intTrunc (q : ℚ) : Int :=
  if 0 ≤ q then ⌊q⌋ else -⌊-q⌋

/-- `LoadConfig` (config.go:37) after `envconfig.Process`: parse the memory
limit through `parseMemoryString` (a failure aborts loading) and convert the
CPU limit to nano-CPUs. -/
def LoadConfig (c : ConfigIn) : Option GoConfig :=
  match parseMemoryString c.memoryLimit with
  | none => none
  | some m =>
    some { memoryLimit := c.memoryLimit, cpuLimit := c.cpuLimit,
           memoryLimitBytes := m,
           cpuLimitNano := intTrunc (c.cpuLimit * 1000000000) }

/-! ## Fixtures and the single-user Acquire/Release trace semantics -/

/-- A concrete configuration for ground instances. -/
def conf₀ : SrvConfig :=
  { dockerImage := "img", quota := "1G", networks := ["net"],
    networkMode := "bridge", capAdd := [], securityOpt := [],
    readOnly := false, vfsMountPath := "/workspace", quotaBytes := 1073741824,
    memoryLimitBytes := 536870912, cpuLimitNano := 1000000000, devices := [],
    containerUser := "user", containerCmd := ["/bin/bash"] }

/-- A provision state whose per-user path is already a subvolume. -/
def ps₀ : ProvisionState := ⟨true, true, false⟩

/-- Runtime behaviour: everything succeeds, the new container id is `c1`. -/
def roOk : RuntimeOutcome := ⟨true, "c1", true, true⟩

/-- Runtime behaviour: creation succeeds, `ContainerStart` fails. -/
def roStartFail : RuntimeOutcome := ⟨true, "c1", true, false⟩

/-- The post-restart state: the in-memory registry is empty while one
container carrying the owner label (user `bob`) lingers in the runtime. -/
def c1St : CMState := ⟨[], [⟨"c1", true, "bob"⟩]⟩

/-- An Acquire or a Release for the single user `u`. -/
inductive SessOp where
  | acquire
  | release
deriving Repr, DecidableEq

/-- One step of the interleaving: Acquire runs `GetOrCreateContainer` (the
runtime succeeding), Release runs `ReleaseContainer`. -/
def traceStep (s : CMState × ProvisionState) (op : SessOp) :
    CMState × ProvisionState :=
  match op with
  | .acquire =>
    let r := GetOrCreateContainer s.1 "u" [] 0 conf₀ s.2 roOk
    (r.st, r.ps)
  | .release => (ReleaseContainer s.1 "u" 0, s.2)

/-- Run a sequence of interleaved Acquire/Release calls from the empty
registry. -/
def runTrace (ops : List SessOp) : CMState × ProvisionState :=
  ops.foldl traceStep (⟨[], []⟩, ps₀)

/-- The refcount the registry holds for `u` (0 when absent). -/
def rcOf (st : CMState) : Int :=
  ((lookupUser st.containers "u").map (·.activeStreams)).getD 0

/-- Every Release is preceded by a matching Acquire (running balance stays
positive at each Release). -/
def balOk : Int → List SessOp → Bool
  | _, [] => true
  | b, .acquire :: r => balOk (b + 1) r
  | b, .release :: r => decide (0 < b) && balOk (b - 1) r

/-- The session-broker discipline: `Release` only after a successful
`Acquire`. -/
def disciplined (ops : List SessOp) : Bool := balOk 0 ops

/-- Number of Acquires. -/
def countA (ops : List SessOp) : Int := (ops.count .acquire : Int)

/-- Number of Releases. -/
def countR (ops : List SessOp) : Int := (ops.count .release : Int)

/-! ## Path cleaning lemmas and claim C10 -/

theorem splitSlash_ne_nil : ∀ cs : List Char, splitSlash cs ≠ [] := by
  intro cs
  induction cs with
  | nil => simp [splitSlash]
  | cons c cs ih =>
    cases h : splitSlash cs with
    | nil => exact absurd h ih
    | cons r rs =>
      simp only [splitSlash, h]
      split <;> simp

theorem splitSlash_slash (cs : List Char) :
    splitSlash ('/' :: cs) = [] :: splitSlash cs := by
  cases h : splitSlash cs with
  | nil => exact absurd h (splitSlash_ne_nil cs)
  | cons r rs => simp [splitSlash, h]

theorem splitSlash_cons_ne (c : Char) (cs : List Char) (h : ¬(c = '/'))
    (r : List Char) (rs : List (List Char)) (hcs : splitSlash cs = r :: rs) :
    splitSlash (c :: cs) = (c :: r) :: rs := by
  simp [splitSlash, hcs, h]

theorem splitSlash_no_slash : ∀ cs : List Char,
    (∀ c ∈ cs, ¬(c = '/')) → splitSlash cs = [cs] := by
  intro cs
  induction cs with
  | nil => simp [splitSlash]
  | cons c cs ih =>
    intro h
    have hc : ¬(c = '/') := h c (List.mem_cons_self c cs)
    have hcs : splitSlash cs = [cs] := ih (fun x hx => h x (List.mem_cons_of_mem c hx))
    exact splitSlash_cons_ne c cs hc cs [] hcs

theorem splitSlash_mnt_vfs (l : List Char) (h : ∀ c ∈ l, ¬(c = '/')) :
    splitSlash ("/mnt/vfs/".data ++ l) =
      [[], ['m', 'n', 't'], ['v', 'f', 's'], l] := by
  have e0 : splitSlash l = [l] := splitSlash_no_slash l h
  have e1 : splitSlash ('/' :: l) = [[], l] := by rw [splitSlash_slash, e0]
  have e2 : splitSlash ('s' :: '/' :: l) = [['s'], l] :=
    splitSlash_cons_ne _ _ (by decide) _ _ e1
  have e3 : splitSlash ('f' :: 's' :: '/' :: l) = [['f', 's'], l] :=
    splitSlash_cons_ne _ _ (by decide) _ _ e2
  have e4 : splitSlash ('v' :: 'f' :: 's' :: '/' :: l) = [['v', 'f', 's'], l] :=
    splitSlash_cons_ne _ _ (by decide) _ _ e3
  have e5 : splitSlash ('/' :: 'v' :: 'f' :: 's' :: '/' :: l) =
      [[], ['v', 'f', 's'], l] := by rw [splitSlash_slash, e4]
  have e6 : splitSlash ('t' :: '/' :: 'v' :: 'f' :: 's' :: '/' :: l) =
      [['t'], ['v', 'f', 's'], l] :=
    splitSlash_cons_ne _ _ (by decide) _ _ e5
  have e7 : splitSlash ('n' :: 't' :: '/' :: 'v' :: 'f' :: 's' :: '/' :: l) =
      [['n', 't'], ['v', 'f', 's'], l] :=
    splitSlash_cons_ne _ _ (by decide) _ _ e6
  have e8 : splitSlash ('m' :: 'n' :: 't' :: '/' :: 'v' :: 'f' :: 's' :: '/' :: l) =
      [['m', 'n', 't'], ['v', 'f', 's'], l] :=
    splitSlash_cons_ne _ _ (by decide) _ _ e7
  have e9 : splitSlash ('/' :: 'm' :: 'n' :: 't' :: '/' :: 'v' :: 'f' :: 's' :: '/' :: l) =
      [[], ['m', 'n', 't'], ['v', 'f', 's'], l] := by rw [splitSlash_slash, e8]
  exact e9

theorem cleanComps_user (l : List Char) (h0 : l ≠ []) (h2 : l ≠ ['.'])
    (h3 : l ≠ ['.', '.']) :
    cleanComps [] [[], ['m', 'n', 't'], ['v', 'f', 's'], l] =
      [['m', 'n', 't'], ['v', 'f', 's'], l] := by
  rw [cleanComps, if_pos rfl]
  rw [cleanComps, if_neg (by decide : ¬(['m', 'n', 't'] = ([] : List Char))),
    if_neg (by decide : ¬(['m', 'n', 't'] = ['.'])),
    if_neg (by decide : ¬(['m', 'n', 't'] = ['.', '.']))]
  rw [cleanComps, if_neg (by decide : ¬(['v', 'f', 's'] = ([] : List Char))),
    if_neg (by decide : ¬(['v', 'f', 's'] = ['.'])),
    if_neg (by decide : ¬(['v', 'f', 's'] = ['.', '.']))]
  rw [cleanComps, if_neg h0, if_neg h2, if_neg h3]
  rfl

theorem cleanAbs_under (u : String) (h0 : u.data ≠ [])
    (h1 : ∀ c ∈ u.data, ¬(c = '/')) (h2 : u.data ≠ ['.'])
    (h3 : u.data ≠ ['.', '.']) :
    cleanAbs ⟨"/mnt/vfs/".data ++ u.data⟩ = "/mnt/vfs/" ++ u := by
  have hs := splitSlash_mnt_vfs u.data h1
  have hc := cleanComps_user u.data h0 h2 h3
  apply String.ext
  show ('/' :: List.intercalate ['/'] (cleanComps [] (splitSlash ("/mnt/vfs/".data ++ u.data)))) = _
  rw [hs, hc]
  have hi : List.intercalate ['/'] [['m', 'n', 't'], ['v', 'f', 's'], u.data] =
      'm' :: 'n' :: 't' :: '/' :: 'v' :: 'f' :: 's' :: '/' :: u.data := by
    simp [List.intercalate, List.intersperse]
  rw [hi]
  rw [String.data_append]
  rfl

/-- Claim C10, as stated, is false: the username `..` (used verbatim, with no
rejection or escaping) makes `path.Join` collapse the per-user path to
`/mnt`, outside the mountpoint; `../../etc` escapes to `/etc`. -/
theorem c10_counterexample :
    userVFS ".." = "/mnt" ∧ underMount (userVFS "..") = false ∧
    userVFS "../../etc" = "/etc" ∧ underMount (userVFS "../../etc") = false := by
  decide

/-- Claim C10 amended: for a clean username — non-empty, slash-free, not `.`
and not `..` — the per-user VFS path is `/mnt/vfs/<user>`, a strict child of
the mountpoint; usernames outside this set can escape (see the
counterexample). -/
theorem c10_amended (u : String) (h0 : u.data ≠ [])
    (h1 : ∀ c ∈ u.data, ¬(c = '/')) (h2 : u.data ≠ ['.'])
    (h3 : u.data ≠ ['.', '.']) :
    userVFS u = "/mnt/vfs/" ++ u ∧ underMount (userVFS u) = true := by
  have key : userVFS u = "/mnt/vfs/" ++ u := by
    show cleanAbs ("/mnt/vfs" ++ "/" ++ u) = _
    have hrw : ("/mnt/vfs" ++ "/" ++ u) = (⟨"/mnt/vfs/".data ++ u.data⟩ : String) := by
      apply String.ext
      rw [String.data_append, String.data_append]
      rfl
    rw [hrw]
    exact cleanAbs_under u h0 h1 h2 h3
  refine ⟨key, ?_⟩
  rw [key]
  have hne : ("/mnt/vfs/" ++ u) ≠ "/mnt/vfs/" := by
    intro he
    have hlen := congrArg (fun s : String => s.data.length) he
    simp only [String.data_append, List.length_append] at hlen
    have : u.data.length = 0 := by omega
    exact h0 (List.length_eq_zero.mp this)
  simp [underMount, String.data_append, listLeads, hne]

theorem c10_amended_witness :
    userVFS "alice" = "/mnt/vfs/alice" ∧ underMount (userVFS "alice") = true := by
  have h := c10_amended "alice" (by decide) (by decide) (by decide) (by decide)
  exact ⟨by rw [h.1]; decide, h.2⟩

/-! ## Registry lemmas and the reaper (claim C4) -/

theorem lookupUser_mem : ∀ {l : List (String × RegEntry)} {u : String}
    {e : RegEntry}, lookupUser l u = some e → (u, e) ∈ l := by
  intro l
  induction l with
  | nil => intro u e h; simp [lookupUser] at h
  | cons p rest ih =>
    intro u e h
    by_cases hp : p.1 = u
    · rw [lookupUser, if_pos hp] at h
      obtain ⟨a, b⟩ := p
      simp at h hp
      subst hp
      subst h
      exact List.mem_cons_self _ _
    · rw [lookupUser, if_neg hp] at h
      exact List.mem_cons_of_mem _ (ih h)

theorem lookupUser_eq_none : ∀ {l : List (String × RegEntry)} {u : String},
    (∀ p ∈ l, ¬(p.1 = u)) → lookupUser l u = none := by
  intro l
  induction l with
  | nil => intro u _; rfl
  | cons p rest ih =>
    intro u h
    rw [lookupUser, if_neg (h p (List.mem_cons_self _ _))]
    exact ih (fun q hq => h q (List.mem_cons_of_mem _ hq))

theorem lookupUser_filter_none : ∀ {l : List (String × RegEntry)} {u : String}
    (p : String × RegEntry → Bool), lookupUser l u = none →
    lookupUser (l.filter p) u = none := by
  intro l
  induction l with
  | nil => intro u p _; rfl
  | cons a rest ih =>
    intro u p h
    rw [lookupUser] at h
    by_cases ha : a.1 = u
    · rw [if_pos ha] at h; simp at h
    · rw [if_neg ha] at h
      cases hpa : p a with
      | true =>
        rw [List.filter_cons_of_pos hpa, lookupUser, if_neg ha]
        exact ih p h
      | false =>
        rw [List.filter_cons_of_neg (by simp [hpa])]
        exact ih p h

theorem lookupUser_erase_self (l : List (String × RegEntry)) (u : String) :
    lookupUser (eraseUser l u) u = none := by
  apply lookupUser_eq_none
  intro q hq
  have := List.of_mem_filter hq
  simpa using this

theorem lookupUser_erase_ne : ∀ (l : List (String × RegEntry)) {u k : String},
    ¬(u = k) → lookupUser (eraseUser l k) u = lookupUser l u := by
  intro l
  induction l with
  | nil => intro u k _; rfl
  | cons p rest ih =>
    intro u k h
    by_cases hp : p.1 = k
    · rw [eraseUser, List.filter_cons_of_neg (by simpa using hp)]
      rw [lookupUser, if_neg (fun hu : p.1 = u => h (hu ▸ hp))]
      exact ih h
    · rw [eraseUser, List.filter_cons_of_pos (by simpa using hp)]
      rw [lookupUser, lookupUser]
      by_cases hu : p.1 = u
      · rw [if_pos hu, if_pos hu]
      · rw [if_neg hu, if_neg hu]
        exact ih h

theorem eraseUser_subset (l : List (String × RegEntry)) (k : String) :
    ∀ p ∈ eraseUser l k, p ∈ l :=
  fun _ hp => List.mem_of_mem_filter hp

theorem removeContainer_sub (st : CMState) (k : String) :
    ∀ p ∈ (removeContainer st k).1.containers, p ∈ st.containers := by
  unfold removeContainer
  cases h : lookupUser st.containers k with
  | none => simp
  | some ct => exact fun p hp => eraseUser_subset _ _ p hp

theorem removeContainer_lookup_ne (st : CMState) {u k : String}
    (h : ¬(u = k)) :
    lookupUser (removeContainer st k).1.containers u =
      lookupUser st.containers u := by
  unfold removeContainer
  cases hrc : lookupUser st.containers k with
  | none => rfl
  | some ct => exact lookupUser_erase_ne _ h

theorem removeContainer_lookup_none (st : CMState) (k : String) {u : String}
    (h : lookupUser st.containers u = none) :
    lookupUser (removeContainer st k).1.containers u = none := by
  unfold removeContainer
  cases hrc : lookupUser st.containers k with
  | none => exact h
  | some ct => exact lookupUser_filter_none _ h

theorem reapList_lookup_none :
    ∀ (l : List (String × RegEntry)) (st : CMState) (now timeout : Nat)
      {u : String}, lookupUser st.containers u = none →
      lookupUser (reapList now timeout l st).1.containers u = none := by
  intro l
  induction l with
  | nil => intro st _ _ u h; exact h
  | cons p rest ih =>
    intro st now timeout u h
    rw [reapList]
    split
    · exact ih _ _ _ (removeContainer_lookup_none st p.1 h)
    · exact ih _ _ _ h

theorem reapList_cons_pos (now timeout : Nat) (p : String × RegEntry)
    (rest : List (String × RegEntry)) (st : CMState)
    (hc : p.2.activeStreams = 0 ∧ now - p.2.lastUsed > timeout) :
    reapList now timeout (p :: rest) st =
      ((reapList now timeout rest (removeContainer st p.1).1).1,
       (removeContainer st p.1).2 ++
         (reapList now timeout rest (removeContainer st p.1).1).2) := by
  rw [reapList, if_pos hc]

theorem reapList_cons_neg (now timeout : Nat) (p : String × RegEntry)
    (rest : List (String × RegEntry)) (st : CMState)
    (hc : ¬(p.2.activeStreams = 0 ∧ now - p.2.lastUsed > timeout)) :
    reapList now timeout (p :: rest) st = reapList now timeout rest st := by
  rw [reapList, if_neg hc]

theorem removeContainer_eq_some {st : CMState} {k : String} {ct : RegEntry}
    (hrc : lookupUser st.containers k = some ct) :
    removeContainer st k =
      ({ containers := eraseUser st.containers k,
         docker := st.docker.filter (fun c => ¬(c.id = ct.id)) },
       [Effect.containerRemove ct.id true true,
        Effect.volumeRemove (volumeNameOf k)]) := by
  unfold removeContainer
  rw [hrc]
  rfl

theorem removeContainer_eq_none {st : CMState} {k : String}
    (hrc : lookupUser st.containers k = none) :
    removeContainer st k = (st, []) := by
  unfold removeContainer
  rw [hrc]

theorem reapList_preserve :
    ∀ (l : List (String × RegEntry)) (st : CMState) (now timeout : Nat)
      (u : String) (e : RegEntry) (R : List (String × RegEntry)),
      lookupUser st.containers u = some e →
      (∀ p ∈ st.containers, p ∈ R) →
      (∀ p ∈ R, ¬(p.1 = u) → ¬(p.2.id = e.id)) →
      (∀ p ∈ l, p.1 = u → p.2 = e) →
      ¬(e.activeStreams = 0 ∧ now - e.lastUsed > timeout) →
      lookupUser (reapList now timeout l st).1.containers u = some e ∧
      ∀ f rv, Effect.containerRemove e.id f rv ∉ (reapList now timeout l st).2 := by
  intro l
  induction l with
  | nil =>
    intro st now timeout u e R hlook _ _ _ _
    exact ⟨hlook, by simp [reapList]⟩
  | cons p rest ih =>
    intro st now timeout u e R hlook hsub hinj hl hcond
    by_cases hc : p.2.activeStreams = 0 ∧ now - p.2.lastUsed > timeout
    · by_cases hpu : p.1 = u
      · have hpe : p.2 = e := hl p (List.mem_cons_self _ _) hpu
        rw [hpe] at hc
        exact absurd hc hcond
      · rw [reapList_cons_pos now timeout p rest st hc]
        have hne : ¬(u = p.1) := fun h => hpu h.symm
        have hl' : ∀ q ∈ rest, q.1 = u → q.2 = e :=
          fun q hq => hl q (List.mem_cons_of_mem _ hq)
        cases hrc : lookupUser st.containers p.1 with
        | none =>
          rw [removeContainer_eq_none hrc]
          have := ih st now timeout u e R hlook hsub hinj hl' hcond
          exact ⟨this.1, fun f rv hmem => this.2 f rv (by simpa using hmem)⟩
        | some ct =>
          rw [removeContainer_eq_some hrc]
          have hlook' : lookupUser (eraseUser st.containers p.1) u = some e := by
            rw [lookupUser_erase_ne _ hne]; exact hlook
          have hsub' : ∀ q ∈ (⟨eraseUser st.containers p.1,
              st.docker.filter (fun c => ¬(c.id = ct.id))⟩ : CMState).containers,
              q ∈ R :=
            fun q hq => hsub q (eraseUser_subset _ _ q hq)
          have hctR : (p.1, ct) ∈ R := hsub _ (lookupUser_mem hrc)
          have hctid : ¬(ct.id = e.id) := hinj (p.1, ct) hctR hpu
          have hrec := ih ⟨eraseUser st.containers p.1,
              st.docker.filter (fun c => ¬(c.id = ct.id))⟩
            now timeout u e R hlook' hsub' hinj hl' hcond
          refine ⟨hrec.1, fun f rv hmem => ?_⟩
          simp only [List.cons_append, List.nil_append, List.mem_cons] at hmem
          rcases hmem with h1 | h2 | h3
          · exact hctid (Effect.containerRemove.inj h1).1.symm
          · exact absurd h2 (by simp)
          · exact hrec.2 f rv h3
    · rw [reapList_cons_neg now timeout p rest st hc]
      exact ih st now timeout u e R hlook hsub hinj
        (fun q hq => hl q (List.mem_cons_of_mem _ hq)) hcond

theorem reapList_removes :
    ∀ (l : List (String × RegEntry)) (st : CMState) (now timeout : Nat)
      (u : String) (e : RegEntry),
      (l.map Prod.fst).Nodup →
      (u, e) ∈ l →
      lookupUser st.containers u = some e →
      e.activeStreams = 0 → now - e.lastUsed > timeout →
      lookupUser (reapList now timeout l st).1.containers u = none ∧
      Effect.containerRemove e.id true true ∈ (reapList now timeout l st).2 ∧
      Effect.volumeRemove (volumeNameOf u) ∈ (reapList now timeout l st).2 := by
  intro l
  induction l with
  | nil => intro st now timeout u e _ hm; simp at hm
  | cons p rest ih =>
    intro st now timeout u e hnd hm hlook hrc0 hidle
    have hndt : (rest.map Prod.fst).Nodup := (List.nodup_cons.mp hnd).2
    have hhead : p.1 ∉ rest.map Prod.fst := (List.nodup_cons.mp hnd).1
    by_cases hpu : p.1 = u
    · have hpe : p = (u, e) := by
        rcases List.mem_cons.mp hm with h1 | h2
        · exact h1.symm
        · exact absurd (hpu ▸ List.mem_map_of_mem Prod.fst h2 :
            p.1 ∈ rest.map Prod.fst) hhead
      have hc : p.2.activeStreams = 0 ∧ now - p.2.lastUsed > timeout := by
        rw [hpe]; exact ⟨hrc0, hidle⟩
      rw [reapList_cons_pos now timeout p rest st hc]
      have hrcu : lookupUser st.containers p.1 = some e := by rw [hpe]; exact hlook
      rw [removeContainer_eq_some hrcu]
      have hnone : lookupUser (eraseUser st.containers p.1) u = none := by
        rw [hpe]; exact lookupUser_erase_self _ _
      refine ⟨reapList_lookup_none rest _ now timeout hnone, ?_, ?_⟩
      · simp
      · rw [hpe]; simp
    · have hm' : (u, e) ∈ rest := by
        rcases List.mem_cons.mp hm with h1 | h2
        · exact absurd (by rw [← h1]) hpu
        · exact h2
      have hne : ¬(u = p.1) := fun h => hpu h.symm
      by_cases hc : p.2.activeStreams = 0 ∧ now - p.2.lastUsed > timeout
      · rw [reapList_cons_pos now timeout p rest st hc]
        have hlook' : lookupUser (removeContainer st p.1).1.containers u = some e := by
          rw [removeContainer_lookup_ne st hne]; exact hlook
        have hrec := ih (removeContainer st p.1).1 now timeout u e hndt hm' hlook' hrc0 hidle
        exact ⟨hrec.1, by simp [hrec.2.1], by simp [hrec.2.2]⟩
      · rw [reapList_cons_neg now timeout p rest st hc]
        exact ih st now timeout u e hndt hm' hlook hrc0 hidle

/-- Helper: with nodup keys, every occurrence of key `u` in the registry
carries the entry `lookupUser` returns. -/
theorem lookup_unique :
    ∀ (l : List (String × RegEntry)) (u : String) (e : RegEntry),
      (l.map Prod.fst).Nodup → lookupUser l u = some e →
      ∀ p ∈ l, p.1 = u → p.2 = e := by
  intro l
  induction l with
  | nil => intro u e _ h; simp [lookupUser] at h
  | cons q rest ih =>
    intro u e hnd hlook p hp hpu
    have hndt : (rest.map Prod.fst).Nodup := (List.nodup_cons.mp hnd).2
    have hhead : q.1 ∉ rest.map Prod.fst := (List.nodup_cons.mp hnd).1
    rw [lookupUser] at hlook
    rcases List.mem_cons.mp hp with h1 | h2
    · subst h1
      rw [if_pos hpu] at hlook
      exact Option.some.inj hlook
    · have hqu : ¬(q.1 = u) := by
        intro hq
        exact hhead (hq ▸ hpu ▸ List.mem_map_of_mem Prod.fst h2)
      rw [if_neg hqu] at hlook
      exact ih u e hndt hlook p h2 hpu

/-- Claim C4: the reaper never removes a container whose refcount is
positive, however stale its last-used instant; a refcount-zero entry still
within the idle timeout is also kept untouched; an entry is deleted exactly
on refcount zero and idle time beyond the timeout, and then the reaper
force-removes the container (with volumes), releases the named volume and
deletes the registry entry. -/
theorem c4_reaper_idle_only (st : CMState) (now timeout : Nat) (u : String)
    (e : RegEntry) (hnd : (st.containers.map Prod.fst).Nodup)
    (hlook : lookupUser st.containers u = some e) :
    ((∀ p ∈ st.containers, ∀ q ∈ st.containers, p.2.id = q.2.id → p.1 = q.1) →
      0 < e.activeStreams →
      lookupUser (cleanupIdleContainers now timeout st).1.containers u = some e ∧
      ∀ f rv, Effect.containerRemove e.id f rv ∉
        (cleanupIdleContainers now timeout st).2) ∧
    ((∀ p ∈ st.containers, ∀ q ∈ st.containers, p.2.id = q.2.id → p.1 = q.1) →
      now - e.lastUsed ≤ timeout →
      lookupUser (cleanupIdleContainers now timeout st).1.containers u = some e ∧
      ∀ f rv, Effect.containerRemove e.id f rv ∉
        (cleanupIdleContainers now timeout st).2) ∧
    (e.activeStreams = 0 → now - e.lastUsed > timeout →
      lookupUser (cleanupIdleContainers now timeout st).1.containers u = none ∧
      Effect.containerRemove e.id true true ∈
        (cleanupIdleContainers now timeout st).2 ∧
      Effect.volumeRemove (volumeNameOf u) ∈
        (cleanupIdleContainers now timeout st).2) := by
  refine ⟨?_, ?_, ?_⟩
  · intro hinj hpos
    have hue : (u, e) ∈ st.containers := lookupUser_mem hlook
    exact reapList_preserve st.containers st now timeout u e st.containers
      hlook (fun p hp => hp)
      (fun p hp hpne hpid => hpne (hinj p hp (u, e) hue hpid))
      (lookup_unique st.containers u e hnd hlook)
      (fun hc => by omega)
  · intro hinj hfresh
    have hue : (u, e) ∈ st.containers := lookupUser_mem hlook
    exact reapList_preserve st.containers st now timeout u e st.containers
      hlook (fun p hp => hp)
      (fun p hp hpne hpid => hpne (hinj p hp (u, e) hue hpid))
      (lookup_unique st.containers u e hnd hlook)
      (fun hc => by omega)
  · intro hrc0 hidle
    exact reapList_removes st.containers st now timeout u e hnd
      (lookupUser_mem hlook) hlook hrc0 hidle

theorem c4_reaper_idle_only_witness :
    (lookupUser (cleanupIdleContainers 100 30
        ⟨[("a", ⟨"ca", 2, 0⟩), ("b", ⟨"cb", 0, 0⟩), ("c", ⟨"cc", 0, 90⟩)],
         [⟨"ca", true, "a"⟩, ⟨"cb", true, "b"⟩, ⟨"cc", true, "c"⟩]⟩).1.containers
        "a" = some ⟨"ca", 2, 0⟩ ∧
     ∀ f rv, Effect.containerRemove "ca" f rv ∉
      (cleanupIdleContainers 100 30
        ⟨[("a", ⟨"ca", 2, 0⟩), ("b", ⟨"cb", 0, 0⟩), ("c", ⟨"cc", 0, 90⟩)],
         [⟨"ca", true, "a"⟩, ⟨"cb", true, "b"⟩, ⟨"cc", true, "c"⟩]⟩).2) ∧
    (lookupUser (cleanupIdleContainers 100 30
        ⟨[("a", ⟨"ca", 2, 0⟩), ("b", ⟨"cb", 0, 0⟩), ("c", ⟨"cc", 0, 90⟩)],
         [⟨"ca", true, "a"⟩, ⟨"cb", true, "b"⟩, ⟨"cc", true, "c"⟩]⟩).1.containers
        "c" = some ⟨"cc", 0, 90⟩ ∧
     ∀ f rv, Effect.containerRemove "cc" f rv ∉
      (cleanupIdleContainers 100 30
        ⟨[("a", ⟨"ca", 2, 0⟩), ("b", ⟨"cb", 0, 0⟩), ("c", ⟨"cc", 0, 90⟩)],
         [⟨"ca", true, "a"⟩, ⟨"cb", true, "b"⟩, ⟨"cc", true, "c"⟩]⟩).2) ∧
    (lookupUser (cleanupIdleContainers 100 30
        ⟨[("a", ⟨"ca", 2, 0⟩), ("b", ⟨"cb", 0, 0⟩), ("c", ⟨"cc", 0, 90⟩)],
         [⟨"ca", true, "a"⟩, ⟨"cb", true, "b"⟩, ⟨"cc", true, "c"⟩]⟩).1.containers
        "b" = none ∧
     Effect.containerRemove "cb" true true ∈
      (cleanupIdleContainers 100 30
        ⟨[("a", ⟨"ca", 2, 0⟩), ("b", ⟨"cb", 0, 0⟩), ("c", ⟨"cc", 0, 90⟩)],
         [⟨"ca", true, "a"⟩, ⟨"cb", true, "b"⟩, ⟨"cc", true, "c"⟩]⟩).2 ∧
     Effect.volumeRemove (volumeNameOf "b") ∈
      (cleanupIdleContainers 100 30
        ⟨[("a", ⟨"ca", 2, 0⟩), ("b", ⟨"cb", 0, 0⟩), ("c", ⟨"cc", 0, 90⟩)],
         [⟨"ca", true, "a"⟩, ⟨"cb", true, "b"⟩, ⟨"cc", true, "c"⟩]⟩).2) :=
  ⟨(c4_reaper_idle_only _ 100 30 "a" ⟨"ca", 2, 0⟩ (by decide) (by decide)).1
      (by decide) (by decide),
   (c4_reaper_idle_only _ 100 30 "c" ⟨"cc", 0, 90⟩ (by decide) (by decide)).2.1
      (by decide) (by decide),
   (c4_reaper_idle_only _ 100 30 "b" ⟨"cb", 0, 0⟩ (by decide) (by decide)).2.2
      (by decide) (by decide)⟩

/-! ## Acquire/Release refcounting (claim C3) -/

theorem lookupUser_update_self :
    ∀ (l : List (String × RegEntry)) (u : String) (f : RegEntry → RegEntry),
      lookupUser (updateUser l u f) u = (lookupUser l u).map f := by
  intro l
  induction l with
  | nil => intro u f; rfl
  | cons p rest ih =>
    intro u f
    by_cases hp : p.1 = u
    · rw [updateUser, List.map_cons, if_pos hp]
      rw [lookupUser, lookupUser]
      simp only [hp, if_pos rfl]
      rfl
    · rw [updateUser, List.map_cons, if_neg hp]
      rw [lookupUser, lookupUser, if_neg hp, if_neg hp]
      exact ih u f

theorem getOrCreate_existing {st : CMState} {user : String}
    {env : List String} {now : Nat} {conf : SrvConfig} {ps : ProvisionState}
    {ro : RuntimeOutcome} {e : RegEntry}
    (h : lookupUser st.containers user = some e) :
    GetOrCreateContainer st user env now conf ps ro =
      { cid := some e.id
        st := { st with containers := updateUser st.containers user (fun x => { x with activeStreams := x.activeStreams + 1, lastUsed := now }) }
        ps := ps
        effects := [] } := by
  unfold GetOrCreateContainer
  rw [h]

theorem release_existing {st : CMState} {user : String} {now : Nat}
    {e : RegEntry} (h : lookupUser st.containers user = some e) :
    ReleaseContainer st user now =
      { st with containers := updateUser st.containers user (fun x => { x with activeStreams := x.activeStreams - 1, lastUsed := now }) } := by
  unfold ReleaseContainer
  rw [h]

theorem runFrom_count :
    ∀ (ops : List SessOp) (st : CMState) (ps : ProvisionState) (e : RegEntry),
      lookupUser st.containers "u" = some e →
      rcOf (List.foldl traceStep (st, ps) ops).1 =
        e.activeStreams + countA ops - countR ops := by
  intro ops
  induction ops with
  | nil =>
    intro st ps e h
    simp [rcOf, h, countA, countR]
  | cons op rest ih =>
    intro st ps e h
    cases op with
    | acquire =>
      rw [List.foldl_cons]
      have hstep : traceStep (st, ps) .acquire =
          ({ st with containers := updateUser st.containers "u" (fun x => { x with activeStreams := x.activeStreams + 1, lastUsed := 0 }) }, ps) := by
        show ((GetOrCreateContainer st "u" [] 0 conf₀ ps roOk).st,
              (GetOrCreateContainer st "u" [] 0 conf₀ ps roOk).ps) = _
        rw [getOrCreate_existing h]
      rw [hstep]
      have := ih ({ st with containers := updateUser st.containers "u" (fun x => { x with activeStreams := x.activeStreams + 1, lastUsed := 0 }) }) ps ({ e with activeStreams := e.activeStreams + 1, lastUsed := 0 })
        (by show lookupUser (updateUser st.containers "u" (fun x => { x with activeStreams := x.activeStreams + 1, lastUsed := 0 })) "u" = some { e with activeStreams := e.activeStreams + 1, lastUsed := 0 }
            rw [lookupUser_update_self, h]
            rfl)
      rw [this]
      simp only [countA, countR, List.count_cons]
      simp
      omega
    | release =>
      rw [List.foldl_cons]
      have hstep : traceStep (st, ps) .release =
          ({ st with containers := updateUser st.containers "u" (fun x => { x with activeStreams := x.activeStreams - 1, lastUsed := 0 }) }, ps) := by
        show (ReleaseContainer st "u" 0, ps) = _
        rw [release_existing h]
      rw [hstep]
      have := ih ({ st with containers := updateUser st.containers "u" (fun x => { x with activeStreams := x.activeStreams - 1, lastUsed := 0 }) }) ps ({ e with activeStreams := e.activeStreams - 1, lastUsed := 0 })
        (by show lookupUser (updateUser st.containers "u" (fun x => { x with activeStreams := x.activeStreams - 1, lastUsed := 0 })) "u" = some { e with activeStreams := e.activeStreams - 1, lastUsed := 0 }
            rw [lookupUser_update_self, h]
            rfl)
      rw [this]
      simp only [countA, countR, List.count_cons]
      simp
      omega

theorem balOk_count :
    ∀ (ops : List SessOp) (b : Int), 0 ≤ b → balOk b ops = true →
      countR ops ≤ b + countA ops := by
  intro ops
  induction ops with
  | nil => intro b hb _; simp [countA, countR]; omega
  | cons op rest ih =>
    intro b hb h
    cases op with
    | acquire =>
      rw [balOk] at h
      have := ih (b + 1) (by omega) h
      simp only [countA, countR, List.count_cons] at *
      simp at *
      omega
    | release =>
      rw [balOk] at h
      rw [Bool.and_eq_true, decide_eq_true_iff] at h
      have := ih (b - 1) (by omega) h.2
      simp only [countA, countR, List.count_cons] at *
      simp at *
      omega

/-- Claim C3 amended: `ReleaseContainer` decrements unconditionally — there
is no floor (see the counterexample, which drives the count to −1) — but
under the session-broker discipline in which every Release follows a
matching successful Acquire, the refcount equals `#Acquire − #Release` and
never goes negative. -/
theorem c3_release_refcount_amended (ops : List SessOp)
    (hd : disciplined ops = true) :
    rcOf (runTrace ops).1 = countA ops - countR ops ∧
    0 ≤ rcOf (runTrace ops).1 := by
  have hnn : 0 ≤ countA ops - countR ops := by
    have := balOk_count ops 0 (by omega) hd
    omega
  cases ops with
  | nil =>
    constructor
    · simp [runTrace, rcOf, lookupUser, countA, countR]
    · simp [runTrace, rcOf, lookupUser]
  | cons op rest =>
    cases op with
    | release =>
      rw [disciplined, balOk] at hd
      simp at hd
    | acquire =>
      have h1 : runTrace (SessOp.acquire :: rest) =
          List.foldl traceStep
            (⟨[("u", ⟨"c1", 1, 0⟩)], [⟨"c1", true, "u"⟩]⟩,
             ⟨true, true, true⟩) rest := by
        rw [runTrace, List.foldl_cons]
        rfl
      have h2 := runFrom_count rest
        ⟨[("u", ⟨"c1", 1, 0⟩)], [⟨"c1", true, "u"⟩]⟩
        ⟨true, true, true⟩ ⟨"c1", 1, 0⟩ (by decide)
      rw [h1, h2]
      constructor
      · simp only [countA, countR, List.count_cons]
        simp
        omega
      · have := balOk_count (SessOp.acquire :: rest) 0 (by omega) hd
        simp only [countA, countR, List.count_cons] at *
        simp at *
        omega

theorem c3_release_refcount_amended_witness :
    rcOf (runTrace [SessOp.acquire, SessOp.release, SessOp.acquire]).1 =
      countA [SessOp.acquire, SessOp.release, SessOp.acquire] -
        countR [SessOp.acquire, SessOp.release, SessOp.acquire] ∧
    0 ≤ rcOf (runTrace [SessOp.acquire, SessOp.release, SessOp.acquire]).1 :=
  c3_release_refcount_amended _ (by decide)

/-! ## Start-failure rollback (C2), volume provisioning (C6), environment flow (C9) -/

theorem containerRemove_not_mem_netEffs (i nid : String) (f rv : Bool)
    (l : List String) :
    Effect.containerRemove i f rv ∉
      (l.map (fun n => Effect.networkConnect n nid)).tail := by
  cases l with
  | nil => simp
  | cons a rest => simp [List.mem_map]

/-- Claim C2 amended: when creation succeeds and `ContainerStart` fails, the
error propagates and no registry entry is inserted — but contrary to the
claim, the just-created container is not force-removed: no `ContainerRemove`
call is issued on this path at all (the container lingers in the runtime;
rollback exists only for network-connect failures). -/
theorem c2_start_failure_no_rollback (st : CMState) (user : String)
    (env : List String) (now : Nat) (conf : SrvConfig) (ps : ProvisionState)
    (ro : RuntimeOutcome)
    (hnew : lookupUser st.containers user = none)
    (hcr : ro.createOk = true) (hnet : ro.networksOk = true)
    (hstart : ro.startOk = false)
    (hfs : ps.pathExists = true → ps.pathIsSubvol = true) :
    (GetOrCreateContainer st user env now conf ps ro).cid = none ∧
    (GetOrCreateContainer st user env now conf ps ro).st.containers =
      st.containers ∧
    (GetOrCreateContainer st user env now conf ps ro).st.docker =
      st.docker ++ [⟨ro.newId, true, user⟩] ∧
    Effect.containerStart ro.newId ∈
      (GetOrCreateContainer st user env now conf ps ro).effects ∧
    ∀ (i : String) (f rv : Bool),
      Effect.containerRemove i f rv ∉
        (GetOrCreateContainer st user env now conf ps ro).effects := by
  obtain ⟨pe, sv, ve⟩ := ps
  cases pe <;> cases sv <;> cases ve <;>
    simp_all [GetOrCreateContainer, createContainer, CreateVFSMount,
      List.mem_append, List.mem_map, containerRemove_not_mem_netEffs]

theorem c2_start_failure_no_rollback_witness :
    (GetOrCreateContainer ⟨[], []⟩ "alice" [] 5 conf₀ ps₀ roStartFail).cid = none ∧
    (GetOrCreateContainer ⟨[], []⟩ "alice" [] 5 conf₀ ps₀ roStartFail).st.containers =
      (⟨[], []⟩ : CMState).containers ∧
    (GetOrCreateContainer ⟨[], []⟩ "alice" [] 5 conf₀ ps₀ roStartFail).st.docker =
      (⟨[], []⟩ : CMState).docker ++ [⟨roStartFail.newId, true, "alice"⟩] ∧
    Effect.containerStart roStartFail.newId ∈
      (GetOrCreateContainer ⟨[], []⟩ "alice" [] 5 conf₀ ps₀ roStartFail).effects ∧
    ∀ (i : String) (f rv : Bool),
      Effect.containerRemove i f rv ∉
        (GetOrCreateContainer ⟨[], []⟩ "alice" [] 5 conf₀ ps₀ roStartFail).effects :=
  c2_start_failure_no_rollback ⟨[], []⟩ "alice" [] 5 conf₀ ps₀ roStartFail
    (by decide) (by decide) (by decide) (by decide) (by decide)

/-- Claim C6: if the per-user path exists but is not a btrfs subvolume,
`CreateVFSMount` fails (the unconditional `btrfs qgroup limit` rejects a
non-subvolume) and `createContainer` returns before any `ContainerCreate`;
if the path does not exist, a subvolume is created there and the call
succeeds; and the qgroup limit is applied on every call. -/
theorem c6_vfs_conflict_subvol_quota :
    (∀ (quota user : String) (ps : ProvisionState),
      ps.pathExists = true → ps.pathIsSubvol = false →
      (CreateVFSMount quota user ps).1 = none) ∧
    (∀ (conf : SrvConfig) (cfg : ContainerConfig) (ps : ProvisionState)
        (docker : List DockerContainer) (ro : RuntimeOutcome),
      ps.pathExists = true → ps.pathIsSubvol = false →
      (createContainer conf cfg ps docker ro).1 = none ∧
      ∀ spec, Effect.containerCreate spec ∉
        (createContainer conf cfg ps docker ro).2.2.2) ∧
    (∀ (quota user : String) (ps : ProvisionState),
      ps.pathExists = false →
      Effect.subvolCreate (userVFS user) ∈ (CreateVFSMount quota user ps).2.2 ∧
      (CreateVFSMount quota user ps).1 = some (volumeNameOf user) ∧
      (CreateVFSMount quota user ps).2.1.pathIsSubvol = true) ∧
    (∀ (quota user : String) (ps : ProvisionState),
      Effect.qgroupLimit quota (userVFS user) ∈
        (CreateVFSMount quota user ps).2.2) := by
  refine ⟨?_, ?_, ?_, ?_⟩
  · intro quota user ps h1 h2
    obtain ⟨pe, sv, ve⟩ := ps
    cases pe <;> cases sv <;> cases ve <;> simp_all [CreateVFSMount]
  · intro conf cfg ps docker ro h1 h2
    obtain ⟨pe, sv, ve⟩ := ps
    cases pe <;> cases sv <;> cases ve <;>
      simp_all [createContainer, CreateVFSMount]
  · intro quota user ps h1
    obtain ⟨pe, sv, ve⟩ := ps
    cases pe <;> cases sv <;> cases ve <;> simp_all [CreateVFSMount]
  · intro quota user ps
    obtain ⟨pe, sv, ve⟩ := ps
    cases pe <;> cases sv <;> cases ve <;> simp_all [CreateVFSMount]

theorem c6_vfs_conflict_subvol_quota_witness :
    (CreateVFSMount "1G" "alice" ⟨true, false, false⟩).1 = none ∧
    (createContainer conf₀ ⟨"img", [], [], false, 0, 0, "alice"⟩
      ⟨true, false, false⟩ [] roOk).1 = none ∧
    Effect.subvolCreate (userVFS "alice") ∈
      (CreateVFSMount "1G" "alice" ⟨false, false, false⟩).2.2 ∧
    Effect.qgroupLimit "1G" (userVFS "alice") ∈
      (CreateVFSMount "1G" "alice" ⟨true, true, false⟩).2.2 :=
  ⟨c6_vfs_conflict_subvol_quota.1 "1G" "alice" ⟨true, false, false⟩ rfl rfl,
   (c6_vfs_conflict_subvol_quota.2.1 conf₀ ⟨"img", [], [], false, 0, 0, "alice"⟩
      ⟨true, false, false⟩ [] roOk rfl rfl).1,
   (c6_vfs_conflict_subvol_quota.2.2.1 "1G" "alice" ⟨false, false, false⟩ rfl).1,
   c6_vfs_conflict_subvol_quota.2.2.2 "1G" "alice" ⟨true, true, false⟩⟩

/-- Claim C9: the session environment is never baked into the created
container — the creation spec carries an empty `Env` and is entirely
independent of the `env` argument (as is the whole of
`GetOrCreateContainer`'s behaviour); the environment reaches the guest only
through the per-session exec spec, which carries it verbatim. -/
theorem c9_env_not_baked (conf : SrvConfig) (cfg : ContainerConfig)
    (vn : String) (st : CMState) (user : String) (e₁ e₂ : List String)
    (now : Nat) (ps : ProvisionState) (ro : RuntimeOutcome) (tty : Bool)
    (guser : String) (cmd sessEnv sessCmd : List String) :
    (buildContainerSpec conf cfg vn).env = [] ∧
    buildContainerSpec conf { cfg with env := e₁ } vn =
      buildContainerSpec conf { cfg with env := e₂ } vn ∧
    GetOrCreateContainer st user e₁ now conf ps ro =
      GetOrCreateContainer st user e₂ now conf ps ro ∧
    (buildExecSpec guser tty sessEnv cmd).env = sessEnv ∧
    (sessionExecSpec conf sessEnv sessCmd tty).env = sessEnv := by
  refine ⟨rfl, rfl, ?_, rfl, rfl⟩
  rfl

/-! ## Configuration memory-limit parsing (claim C7) -/

theorem isSpaceGo_of_digit {c : Char} (h : c.isDigit = true) :
    isSpaceGo c = false := by
  cases hs : isSpaceGo c with
  | false => rfl
  | true =>
    exfalso
    simp only [isSpaceGo, Bool.or_eq_true, decide_eq_true_eq] at hs
    rcases hs with ((((h1 | h1) | h1) | h1) | h1) <;> subst h1 <;>
      exact absurd h (by decide)

theorem digit_ne_minus {c : Char} (h : c.isDigit = true) : ¬(c = '-') := by
  intro he; subst he; simp at h

theorem digit_ne_plus {c : Char} (h : c.isDigit = true) : ¬(c = '+') := by
  intro he; subst he; simp at h

theorem takeWhile_all {p : Char → Bool} :
    ∀ l : List Char, (∀ c ∈ l, p c = true) → l.takeWhile p = l := by
  intro l
  induction l with
  | nil => intro _; rfl
  | cons a rest ih =>
    intro h
    rw [List.takeWhile_cons, h a (List.mem_cons_self _ _)]
    simp [ih (fun c hc => h c (List.mem_cons_of_mem _ hc))]

theorem dropWhile_head_false {p : Char → Bool} {a : Char} (l : List Char)
    (h : p a = false) : (a :: l).dropWhile p = a :: l := by
  rw [List.dropWhile_cons, h]
  simp

theorem trimSpace_digits_G (d : Char) (ds : List Char)
    (hd : d.isDigit = true) :
    trimSpace ((d :: ds) ++ ['G']) = (d :: ds) ++ ['G'] := by
  unfold trimSpace
  rw [show ((d :: ds) ++ ['G'] : List Char) = d :: (ds ++ ['G']) by simp]
  rw [dropWhile_head_false _ (isSpaceGo_of_digit hd)]
  rw [show (d :: (ds ++ ['G'])).reverse = 'G' :: (ds.reverse ++ [d]) by simp]
  rw [dropWhile_head_false _ (by decide : isSpaceGo 'G' = false)]
  simp

theorem goSscanfD_digits (d : Char) (ds : List Char)
    (hall : ∀ c ∈ d :: ds, c.isDigit = true)
    (hbound : natOfDigits (d :: ds) ≤ 2 ^ 63 - 1) :
    goSscanfD (d :: ds) = some ((natOfDigits (d :: ds) : Int)) := by
  have hd : d.isDigit = true := hall d (List.mem_cons_self _ _)
  have hsign : scanSign (d :: ds) = (false, d :: ds) := by
    unfold scanSign
    rw [List.head?_cons, if_neg (by simp [digit_ne_minus hd]),
      if_neg (by simp [digit_ne_plus hd])]
  have hbig : natOfDigits (d :: ds) ≤ 9223372036854775807 := by
    have h := hbound
    norm_num at h
    exact h
  have hsv : signedVal false (d :: ds) = (natOfDigits (d :: ds) : Int) := by
    unfold signedVal
    simp
  unfold goSscanfD
  rw [dropWhile_head_false _ (isSpaceGo_of_digit hd), hsign]
  show toInt64Checked false ((d :: ds).takeWhile Char.isDigit) = _
  rw [takeWhile_all _ hall]
  unfold toInt64Checked
  rw [hsv]
  rw [if_neg (by simp : ¬((d :: ds) = []))]
  rw [if_neg (by
    simp only [not_or, not_lt]
    have hc := Int.natCast_nonneg (natOfDigits (d :: ds))
    exact ⟨by omega, by omega⟩)]

theorem wrap64_id {i : Int} (h0 : 0 ≤ i) (h1 : i ≤ 2 ^ 63 - 1) :
    wrap64 i = i := by
  unfold wrap64
  rw [Int.emod_eq_of_lt (by omega) (by omega)]
  omega

/-- Claim C7 amended: configuration loading parses the memory limit through
`parseMemoryString`, not through the Size Parser: the stored byte value
equals `parseMemoryString`'s result and loading fails exactly when
`parseMemoryString` errors.  On uppercase-`G`-suffixed integers it agrees
with the binary multiplier (`<n>G ↦ n·2³⁰`), but it is not `ParseSize` —
they disagree, e.g., on `512MB` (see the counterexample). -/
theorem c7_memory_limit_via_parseMemoryString :
    (∀ c : ConfigIn,
      (parseMemoryString c.memoryLimit = none → LoadConfig c = none) ∧
      (∀ v, parseMemoryString c.memoryLimit = some v →
        (LoadConfig c).map (·.memoryLimitBytes) = some v)) ∧
    (∀ (d : Char) (ds : List Char),
      (∀ c ∈ d :: ds, c.isDigit = true) →
      (natOfDigits (d :: ds) : Int) * 2 ^ 30 ≤ 2 ^ 63 - 1 →
      parseMemoryString ⟨(d :: ds) ++ ['G']⟩ =
        some ((natOfDigits (d :: ds) : Int) * 2 ^ 30)) := by
  constructor
  · intro c
    constructor
    · intro h; simp [LoadConfig, h]
    · intro v h; simp [LoadConfig, h]
  · intro d ds hall hbound
    have hstrip : stripMemSuffix (trimSpace
        ((⟨(d :: ds) ++ ['G']⟩ : String).data)) = (2 ^ 30, d :: ds) := by
      rw [show (⟨(d :: ds) ++ ['G']⟩ : String).data = (d :: ds) ++ ['G'] from rfl]
      rw [trimSpace_digits_G d ds (hall d (List.mem_cons_self _ _))]
      unfold stripMemSuffix
      rw [if_pos (by rw [List.getLast?_concat]), List.dropLast_concat]
    have hb : natOfDigits (d :: ds) ≤ 2 ^ 63 - 1 := by
      have hc : (natOfDigits (d :: ds) : Int) ≤ 2 ^ 63 - 1 := by
        nlinarith [hbound, Int.natCast_nonneg (natOfDigits (d :: ds))]
      omega
    unfold parseMemoryString
    rw [hstrip]
    show (goSscanfD (d :: ds)).map _ = _
    rw [goSscanfD_digits d ds hall hb]
    show some (wrap64 ((natOfDigits (d :: ds) : Int) * 2 ^ 30)) =
      some ((natOfDigits (d :: ds) : Int) * 2 ^ 30)
    rw [wrap64_id (by positivity) hbound]

theorem c7_memory_limit_via_parseMemoryString_witness :
    ((parseMemoryString (ConfigIn.mk "512M" 1).memoryLimit = none →
        LoadConfig ⟨"512M", 1⟩ = none) ∧
     (∀ v, parseMemoryString (ConfigIn.mk "512M" 1).memoryLimit = some v →
        (LoadConfig ⟨"512M", 1⟩).map (·.memoryLimitBytes) = some v)) ∧
    parseMemoryString ⟨['5', '1', '2'] ++ ['G']⟩ =
      some ((natOfDigits ['5', '1', '2'] : Int) * 2 ^ 30) :=
  ⟨c7_memory_limit_via_parseMemoryString.1 ⟨"512M", 1⟩,
   c7_memory_limit_via_parseMemoryString.2 '5' ['1', '2'] (by decide)
     (by decide)⟩

/-! ## Float64 rounding of ParseSize (claim C8) -/

theorem ilog2Aux_spec :
    ∀ (fuel : ℕ) (a : Frac), 0 < a.2 → a.2 ≤ a.1 → a.1 < 2 ^ fuel * a.2 →
      2 ^ (ilog2Aux fuel a) * a.2 ≤ a.1 ∧
      a.1 < 2 ^ (ilog2Aux fuel a + 1) * a.2 := by
  intro fuel
  induction fuel with
  | zero =>
    intro a hd h1 h2
    simp at h2
    omega
  | succ fuel ih =>
    intro a hd h1 h2
    rw [ilog2Aux]
    cases hlt : fracLT a (2, 1) with
    | true =>
      rw [if_pos rfl]
      unfold fracLT at hlt
      simp at hlt
      constructor
      · simpa using h1
      · have h : 2 ^ (0 + 1) * a.2 = 2 * a.2 := by ring
        omega
    | false =>
      rw [if_neg (by simp)]
      unfold fracLT at hlt
      simp at hlt
      have hrec := ih (a.1, a.2 * 2) (by simp; omega)
        (by simp; omega)
        (by
          have h : 2 ^ fuel * (a.2 * 2) = 2 ^ (fuel + 1) * a.2 := by ring
          simp only [h]
          exact h2)
      set e := ilog2Aux fuel (a.1, a.2 * 2) with he
      have ha : 2 ^ (e + 1) * a.2 = 2 ^ e * (a.2 * 2) := by ring
      have hb : 2 ^ (e + 1 + 1) * a.2 = 2 ^ (e + 1) * (a.2 * 2) := by ring
      constructor
      · rw [ha]; exact hrec.1
      · rw [hb]; exact hrec.2

theorem flRound_intval (a : Frac) (n : ℕ) (hd : 0 < a.2) (hv : a.1 = n * a.2)
    (h53 : n ≤ 2 ^ 53) :
    ∃ d : ℕ, 0 < d ∧ flRound a = (n * d, d) := by
  rcases Nat.eq_zero_or_pos n with hn0 | hn1
  · subst hn0
    refine ⟨1, one_pos, ?_⟩
    unfold flRound
    rw [if_pos (by omega : a.1 = 0)]
  · have ha1 : ¬(a.1 = 0) := by
      have := Nat.mul_pos hn1 hd
      omega
    have h2le : a.2 ≤ a.1 := by
      rw [hv]
      calc a.2 = 1 * a.2 := by ring
      _ ≤ n * a.2 := Nat.mul_le_mul_right _ hn1
    have hle : fracLE (1, 1) a = true := by
      show decide (1 * a.2 ≤ a.1 * 1) = true
      simp only [decide_eq_true_eq]
      omega
    have hfuel : a.1 < 2 ^ 1200 * a.2 := by
      rw [hv]
      have hn1200 : n < 2 ^ 1200 := by
        calc n ≤ 2 ^ 53 := h53
        _ < 2 ^ 1200 := Nat.pow_lt_pow_right (by norm_num) (by norm_num)
      exact (Nat.mul_lt_mul_right hd).mpr hn1200
    have hspec := ilog2Aux_spec 1200 a hd h2le hfuel
    unfold flRound
    rw [if_neg ha1]
    rw [show ilog2 a = ((ilog2Aux 1200 a : ℕ) : ℤ) from by
      unfold ilog2; rw [hle]; simp]
    show ∃ d, 0 < d ∧
      fracMulPow2 (((ilog2Aux 1200 a : ℕ) : ℤ) - 52)
        (rneF (fracMulPow2 (52 - ((ilog2Aux 1200 a : ℕ) : ℤ)) a), 1) =
      (n * d, d)
    set j := ilog2Aux 1200 a with hj
    have hjn1 : 2 ^ j ≤ n := by
      have h := hspec.1
      rw [hv] at h
      exact Nat.le_of_mul_le_mul_right h hd
    have hjn2 : n < 2 ^ (j + 1) := by
      have h := hspec.2
      rw [hv] at h
      exact (Nat.mul_lt_mul_right hd).mp h
    have hj53 : j ≤ 53 := by
      by_contra hgt
      push_neg at hgt
      have h1 : (2 : ℕ) ^ 54 ≤ 2 ^ j := Nat.pow_le_pow_right (by norm_num) (by omega)
      exact absurd (le_trans h1 (le_trans hjn1 h53)) (by norm_num)
    by_cases hj52 : j ≤ 52
    · have hnn : (0 : ℤ) ≤ 52 - (j : ℤ) := by omega
      have htn : ((52 : ℤ) - (j : ℤ)).toNat = 52 - j := by omega
      rw [show fracMulPow2 (52 - (j : ℤ)) a = (a.1 * 2 ^ (52 - j), a.2) from by
        unfold fracMulPow2; rw [if_pos hnn, htn]]
      have hfl : a.1 * 2 ^ (52 - j) / a.2 = n * 2 ^ (52 - j) := by
        rw [hv, show n * a.2 * 2 ^ (52 - j) = n * 2 ^ (52 - j) * a.2 from by ring]
        exact Nat.mul_div_cancel _ hd
      have hr : rneF (a.1 * 2 ^ (52 - j), a.2) = n * 2 ^ (52 - j) := by
        unfold rneF floorF
        simp only
        rw [hfl]
        rw [show a.1 * 2 ^ (52 - j) - n * 2 ^ (52 - j) * a.2 = 0 from by
          rw [hv, show n * a.2 * 2 ^ (52 - j) = n * 2 ^ (52 - j) * a.2 from by ring]
          exact Nat.sub_self _]
        rw [if_pos (by omega : 2 * 0 < a.2)]
      rw [hr]
      by_cases hje : j = 52
      · refine ⟨1, one_pos, ?_⟩
        rw [hje]
        rw [show fracMulPow2 (((52 : ℕ) : ℤ) - 52) (n * 2 ^ (52 - 52), 1) =
            (n * 1, 1) from by
          unfold fracMulPow2; rw [if_pos (by omega)]; simp]
      · refine ⟨2 ^ (52 - j), Nat.pos_pow_of_pos _ (by norm_num), ?_⟩
        rw [show fracMulPow2 ((j : ℤ) - 52) (n * 2 ^ (52 - j), 1) =
            (n * 2 ^ (52 - j), 2 ^ (52 - j)) from by
          unfold fracMulPow2
          rw [if_neg (by omega)]
          rw [show (-((j : ℤ) - 52)).toNat = 52 - j from by omega]
          simp]
    · have hje : j = 53 := by omega
      have hn53 : n = 2 ^ 53 := by
        rw [hje] at hjn1
        norm_num at hjn1 h53
        omega
      refine ⟨1, one_pos, ?_⟩
      rw [hje]
      rw [show fracMulPow2 (52 - ((53 : ℕ) : ℤ)) a = (a.1, a.2 * 2) from by
        unfold fracMulPow2
        rw [if_neg (by omega)]
        norm_num]
      have hfl : a.1 / (a.2 * 2) = 2 ^ 52 := by
        rw [hv, hn53, show 2 ^ 53 * a.2 = 2 ^ 52 * (a.2 * 2) from by ring]
        exact Nat.mul_div_cancel _ (by omega)
      have hr : rneF (a.1, a.2 * 2) = 2 ^ 52 := by
        unfold rneF floorF
        simp only
        rw [hfl]
        rw [show a.1 - 2 ^ 52 * (a.2 * 2) = 0 from by
          rw [hv, hn53, show 2 ^ 53 * a.2 = 2 ^ 52 * (a.2 * 2) from by ring]
          exact Nat.sub_self _]
        rw [if_pos (by omega : 2 * 0 < a.2 * 2)]
      rw [hr]
      rw [show fracMulPow2 (((53 : ℕ) : ℤ) - 52) ((2 : ℕ) ^ 52, 1) = (2 ^ 53, 1) from by
        unfold fracMulPow2
        rw [if_pos (by omega)]
        rw [show (((53 : ℕ) : ℤ) - 52).toNat = 1 from by omega]
        norm_num]
      rw [hn53]
      norm_num

set_option maxRecDepth 8000 in
/-- Claim C8 amended: results are exact only up to float64 precision — for
every input decomposing into an integer digit string and a unit whose exact
product is at most 2⁵³ the returned byte count is exactly
`value × multiplier`; above 2⁵³ the count is rounded (see the
counterexample, where 2⁵³+1 parses to 2⁵³), and the overflow guard compares
the float64 product against 2⁶⁴ (the rounding of `math.MaxUint64`), so a
product of exactly 2⁶⁴ escapes into the implementation-defined conversion
instead of a SizeOverflow error. -/
theorem c8_parse_exact_below_2_53 (s : String) (ip unit : List Char)
    (k n : ℕ)
    (hm : matchSize (s.data.map Char.toUpper) = some ((ip, []), unit))
    (hk : unitPow unit = some k)
    (hn : natOfDigits ip = n)
    (hbound : n * 1024 ^ k ≤ 2 ^ 53) :
    ParseSize s = SizeResult.ok (n * 1024 ^ k) := by
  have hne : ¬(s.data = []) := by
    intro h
    rw [h] at hm
    simp [matchSize] at hm
  have hdec : decValue ip [] = (n, 1) := by
    unfold decValue
    rw [hn, show natOfDigits [] = 0 from rfl]
    norm_num
  have hn53 : n ≤ 2 ^ 53 := by
    calc n = n * 1 := by ring
    _ ≤ n * 1024 ^ k := Nat.mul_le_mul_left _ (Nat.one_le_pow _ _ (by norm_num))
    _ ≤ 2 ^ 53 := hbound
  obtain ⟨d1, hd1, hv⟩ := flRound_intval (n, 1) n one_pos (by simp) hn53
  have hg1 : fracLE (2 ^ 1024, 1) (n * d1, d1) = false := by
    show decide (2 ^ 1024 * d1 ≤ n * d1 * 1) = false
    simp only [decide_eq_false_iff_not, not_le, mul_one]
    have hlt : n < 2 ^ 1024 := by
      calc n ≤ 2 ^ 53 := hn53
      _ < 2 ^ 1024 := Nat.pow_lt_pow_right (by norm_num) (by norm_num)
    exact (Nat.mul_lt_mul_right hd1).mpr hlt
  have hmul : fracMulNat (n * d1, d1) (1024 ^ k) = (n * 1024 ^ k * d1, d1) := by
    show (n * d1 * 1024 ^ k, d1) = _
    rw [show n * d1 * 1024 ^ k = n * 1024 ^ k * d1 from by ring]
  obtain ⟨d2, hd2, hb⟩ := flRound_intval (n * 1024 ^ k * d1, d1)
    (n * 1024 ^ k) hd1 rfl hbound
  have hlt64 : n * 1024 ^ k < 2 ^ 64 := by
    calc n * 1024 ^ k ≤ 2 ^ 53 := hbound
    _ < 2 ^ 64 := by norm_num
  have hg2 : fracLT (2 ^ 64, 1) (n * 1024 ^ k * d2, d2) = false := by
    show decide (2 ^ 64 * d2 < n * 1024 ^ k * d2 * 1) = false
    simp only [decide_eq_false_iff_not, not_lt, mul_one]
    exact Nat.mul_le_mul_right _ (le_of_lt hlt64)
  have hg3 : fracEQ (n * 1024 ^ k * d2, d2) (2 ^ 64, 1) = false := by
    show decide (n * 1024 ^ k * d2 * 1 = 2 ^ 64 * d2) = false
    simp only [decide_eq_false_iff_not, mul_one]
    intro he
    have heq : n * 1024 ^ k = 2 ^ 64 := Nat.eq_of_mul_eq_mul_right hd2 he
    omega
  have hfloor : floorF (n * 1024 ^ k * d2, d2) = n * 1024 ^ k := by
    unfold floorF
    exact Nat.mul_div_cancel _ hd2
  unfold ParseSize parseSizeCore
  rw [if_neg hne, hm]
  simp only [hdec, hv, hg1, Bool.false_eq_true, if_false, hk, hmul, hb, hg2,
    hg3, hfloor]

set_option maxRecDepth 100000 in
theorem c8_parse_exact_below_2_53_witness :
    ParseSize "2M" = SizeResult.ok (2 * 1024 ^ 2) :=
  c8_parse_exact_below_2_53 "2M" ['2'] ['M'] 2 2 (by decide) (by decide)
    (by decide) (by norm_num)

/-! ## Ground evaluations: claims C1, C2, C3, C5, C7, C8 at concrete inputs -/

/-- Claim C1 (code bug): starting from the post-restart state `c1St` — empty
registry, one lingering container labelled `owner=sshcontainer,user=bob` —
`Shutdown` lists the container but `removeContainer` skips it because `bob`
is not in the registry map: no removal call is issued and the owner-labelled
listing is non-empty afterwards. -/
theorem c1_shutdown_leaves_unregistered_container :
    (Shutdown c1St).2 = [] ∧
    ((Shutdown c1St).1.docker.filter (·.hasOwnerLabel)) =
      [⟨"c1", true, "bob"⟩] := by
  decide

/-- Claim C2, as stated, is false at this input: creation succeeds (`c1`),
`ContainerStart` fails, and the recorded call trace contains no
`ContainerRemove` — the just-created container is not rolled back (it is
still in the runtime state) — although the error does propagate and no
registry entry is inserted. -/
theorem c2_counterexample :
    (GetOrCreateContainer ⟨[], []⟩ "alice" [] 5 conf₀ ps₀ roStartFail).cid = none ∧
    (GetOrCreateContainer ⟨[], []⟩ "alice" [] 5 conf₀ ps₀ roStartFail).st =
      ⟨[], [⟨"c1", true, "alice"⟩]⟩ ∧
    (GetOrCreateContainer ⟨[], []⟩ "alice" [] 5 conf₀ ps₀ roStartFail).effects =
      [Effect.qgroupLimit "1G" "/mnt/vfs/alice",
       Effect.volumeCreate "sshcontainer-vfs-alice",
       Effect.containerCreate (buildContainerSpec conf₀
         ⟨"img", [], [], false, 0, 0, "alice"⟩ "sshcontainer-vfs-alice"),
       Effect.containerStart "c1"] := by
  decide

/-- Claim C3, as stated, is false: a Release when the refcount is already
zero is not a no-op — after Acquire, Release, Release the stored refcount is
`-1`, not `0`. -/
theorem c3_counterexample :
    rcOf (runTrace [.acquire, .release, .release]).1 = -1 := by
  decide

/-- Claim C5, as stated, is false: the pattern `[KMGT]B?|B?` does not admit
an `I`, so `1GiB` (in any casing) is rejected with a format error instead of
parsing to `1073741824`. -/
theorem c5_counterexample :
    ParseSize "1GiB" = SizeResult.errFormat ∧
    ParseSize "1GIB" = SizeResult.errFormat ∧
    ParseSize "1gib" = SizeResult.errFormat := by
  decide

set_option maxRecDepth 100000 in
/-- Claim C5 amended: the accepted units are exactly ∅, `B`, `K`, `KB`, `M`,
`MB`, `G`, `GB`, `T`, `TB`, case-insensitively, with 1024-based multipliers
and optional whitespace before the unit; `1G` and `1GB` both parse to
`1073741824`, while the `·iB` forms are format errors. -/
theorem c5_amended :
    ParseSize "1" = SizeResult.ok 1 ∧
    ParseSize "1B" = SizeResult.ok 1 ∧
    ParseSize "1b" = SizeResult.ok 1 ∧
    ParseSize "1K" = SizeResult.ok 1024 ∧
    ParseSize "1kb" = SizeResult.ok 1024 ∧
    ParseSize "1M" = SizeResult.ok 1048576 ∧
    ParseSize "1mB" = SizeResult.ok 1048576 ∧
    ParseSize "1G" = SizeResult.ok 1073741824 ∧
    ParseSize "1gb" = SizeResult.ok 1073741824 ∧
    ParseSize "1GB" = SizeResult.ok 1073741824 ∧
    ParseSize "1T" = SizeResult.ok 1099511627776 ∧
    ParseSize "1tb" = SizeResult.ok 1099511627776 ∧
    ParseSize "2.5G" = SizeResult.ok 2684354560 ∧
    ParseSize "1 G" = SizeResult.ok 1073741824 ∧
    ParseSize "1KiB" = SizeResult.errFormat ∧
    ParseSize "1MiB" = SizeResult.errFormat ∧
    ParseSize "1GiB" = SizeResult.errFormat ∧
    ParseSize "1TiB" = SizeResult.errFormat := by
  decide

set_option maxRecDepth 100000 in
/-- Claim C7, as stated, is false: the memory limit goes through
`parseMemoryString`, not the Size Parser.  `512MB` loads as 512 bytes while
`ParseSize` yields 536870912; `1GiB` loads (as 1 byte) while `ParseSize`
rejects it. -/
theorem c7_counterexample :
    (LoadConfig ⟨"512MB", 1⟩).map (·.memoryLimitBytes) = some 512 ∧
    ParseSize "512MB" = SizeResult.ok 536870912 ∧
    (LoadConfig ⟨"1GiB", 1⟩).map (·.memoryLimitBytes) = some 1 ∧
    ParseSize "1GiB" = SizeResult.errFormat := by
  decide

set_option maxRecDepth 100000 in
/-- Claim C8, as stated, is false: `9007199254740993` (2⁵³+1) fits `uint64`
yet parses to the rounded 2⁵³; and `18446744073709551616` (2⁶⁴) exceeds
2⁶⁴−1 yet is not caught by the `> math.MaxUint64` guard (whose constant
rounds to 2⁶⁴), reaching the implementation-defined conversion instead of a
SizeOverflow error. -/
theorem c8_counterexample :
    ParseSize "9007199254740993" = SizeResult.ok 9007199254740992 ∧
    ParseSize "18446744073709551616" = SizeResult.undef ∧
    ParseSize "36893488147419103232" = SizeResult.errOverflow := by
  decide
